import Mathlib

/-!
Shallow embedding of `src/eva/core/trainers/functional.py` from the `eva`
repository.

The module is sequential orchestration code: it clones a base trainer and a
base model, runs fit / validate / test / predict phases through an underlying
training framework, and feeds per-run scores into a session-level recorder.

Modelling choices:

* Framework objects (trainers, models) live in an explicit `Heap`: a store of
  abstract object states `σ` indexed by `Nat` ids, with an allocation counter.
  Python mutation of an object becomes a store update at its id.
* Every delegated framework call (`trainer.fit`, `trainer.validate`,
  `trainer.test`, `trainer.predict`) is a field of an abstract `Framework`
  structure; each such call may raise, returning `Except E`.  Logger calls and
  `configure_model` are modelled as total state transformers, as the claims
  only track when they are invoked.
* Each function additionally returns the linear trace of external calls it
  performed (a `List (Event S)`), which makes call order, call counts and
  argument flow (verbosity, run ids) provable.  The recorder lives outside the
  sources (`eva.core.trainers._recorder`), so `SessionRecorder` construction,
  `update` and `save` appear only as trace events.
* Python's `for run_index in range(n_runs)` with `n_runs : int` is modelled
  over `(List.range n_runs.toNat)`: for non-positive `n_runs` the range is
  empty, exactly as in Python.
-/

namespace Eva

/-- A heap of mutable framework objects: a store of abstract object states
indexed by `Nat` ids, together with the next fresh id. -/
structure Heap (σ : Type) where
  store : Nat → σ
  nextId : Nat

/-- Read the state of the object with id `i`. -/
def Heap.get {σ : Type} (h : Heap σ) (i : Nat) : σ :=
  h.store i

/-- Mutate the object with id `i` in place. -/
def Heap.set {σ : Type} (h : Heap σ) (i : Nat) (s : σ) : Heap σ :=
  ⟨fun j => if j = i then s else h.store j, h.nextId⟩

/-- Allocate a fresh object holding state `s`; returns its id. -/
def Heap.alloc {σ : Type} (h : Heap σ) (s : σ) : Nat × Heap σ :=
  (h.nextId, ⟨fun j => if j = h.nextId then s else h.store j, h.nextId + 1⟩)

/-- The datasets of a data module; `functional.py` only inspects
`datamodule.datasets.test`. -/
structure Datasets (δ : Type) where
  test : Option δ

/-- The data module passed through to every framework call. -/
structure DataModule (δ : Type) where
  datasets : Datasets δ

/-- The underlying training framework, abstracted: the behaviour of every call
that `functional.py` delegates.  `σ` is the abstract state of a trainer or
model object, `S` the type of evaluation scores (`_EVALUATE_OUTPUT`), `P` the
type of predictions, `E` the type of exceptions, `δ` the type of datasets.
`fit`, `validate`, `test` and `predict` may raise; they return the updated
object states together with their result. -/
structure Framework (σ S P E δ : Type) where
  fit : σ → σ → DataModule δ → Except E (σ × σ)
  validate : σ → DataModule δ → Bool → String → Except E (S × σ)
  test : σ → DataModule δ → Bool → String → Except E (S × σ)
  predict : σ → σ → DataModule δ → Bool → Except E (P × σ × σ)
  configure_model : σ → σ
  init_logger_run : σ → Option Int → σ
  finish_logger_run : σ → Option Int → σ
  checkpoint_type : σ → String
  default_log_dir : σ → String

/-- One external call performed by the module, as recorded in a trace. -/
inductive Event (S : Type) where
  | cloneCall (baseTrainer baseModel newTrainer newModel : Nat)
  | configureModel (model : Nat)
  | initLoggerRun (trainer : Nat) (runId : Option Int)
  | finishLoggerRun (trainer : Nat) (runId : Option Int)
  | fitCall (trainer model : Nat)
  | validateCall (trainer : Nat) (verbose : Bool) (ckptPath : String)
  | testCall (trainer : Nat) (verbose : Bool) (ckptPath : String)
  | predictCall (trainer model : Nat) (returnPredictions : Bool)
  | recorderNew (outputDir : String) (verbose : Bool)
  | recorderUpdate (validationScores : S) (testScores : Option S)
  | recorderSave
  deriving DecidableEq

/-- Whether an event is a `recorder.update` call. -/
def Event.isUpdate {S : Type} : Event S → Bool
  | .recorderUpdate _ _ => true
  | _ => false

/-- Whether an event is a `recorder.save` call. -/
def Event.isSave {S : Type} : Event S → Bool
  | .recorderSave => true
  | _ => false

/-- Whether an event is a `trainer.init_logger_run` call. -/
def Event.isInit {S : Type} : Event S → Bool
  | .initLoggerRun _ _ => true
  | _ => false

/-- Whether an event is a `trainer.finish_logger_run` call. -/
def Event.isFinish {S : Type} : Event S → Bool
  | .finishLoggerRun _ _ => true
  | _ => false

/-- Whether an event is a `trainer.test` call. -/
def Event.isTest {S : Type} : Event S → Bool
  | .testCall _ _ _ => true
  | _ => false

/-- The run id carried by a `trainer.init_logger_run` event. -/
def Event.initRunId {S : Type} : Event S → Option (Option Int)
  | .initLoggerRun _ r => some r
  | _ => none

/-- The `verbose` flag passed to a `trainer.validate` or `trainer.test`
call. -/
def Event.runVerbose {S : Type} : Event S → Option Bool
  | .validateCall _ v _ => some v
  | .testCall _ v _ => some v
  | _ => none

/-- In-place method call on the object with id `i`: read its state, apply
`f`, write the result back. -/
def Heap.set_with {σ : Type} (h : Heap σ) (i : Nat) (f : σ → σ) : Heap σ :=
  h.set i (f (h.get i))

/-- Modelled from the spec: `_utils.clone` (module `eva.core.trainers._utils`,
not among the sources).  It produces fresh deep copies of the base trainer and
base model — "use a fresh clone per run" — so the clones are newly allocated
objects holding copies of the base states, and the base objects are untouched. -/
def clone {σ : Type} (h : Heap σ) (base_trainer base_model : Nat) :
    (Nat × Nat) × Heap σ :=
  match h.alloc (h.get base_trainer) with
  | (trainer, h1) =>
      match h1.alloc (h.get base_model) with
      | (model, h2) => ((trainer, model), h2)

/-- The test phase of `fit_and_validate` (functional.py, lines 105-109):
`None if datamodule.datasets.test is None else trainer.test(...)`, with
`ckpt_path=trainer.checkpoint_type`. -/
def test_phase {σ S P E δ : Type} (fw : Framework σ S P E δ) (h2 : Heap σ)
    (trainer : Nat) (datamodule : DataModule δ) (verbose : Bool)
    (validation_scores : S) :
    Except E (S × Option S) × List (Event S) × Heap σ :=
  match datamodule.datasets.test with
  | none => (.ok (validation_scores, none), [], h2)
  | some _ =>
      match fw.test (h2.get trainer) datamodule verbose
          (fw.checkpoint_type (h2.get trainer)) with
      | .error e =>
          (.error e,
           [.testCall trainer verbose (fw.checkpoint_type (h2.get trainer))], h2)
      | .ok tt =>
          (.ok (validation_scores, some tt.1),
           [.testCall trainer verbose (fw.checkpoint_type (h2.get trainer))],
           h2.set trainer tt.2)

/-- The validation phase of `fit_and_validate` (functional.py, lines 102-104)
followed by the test phase: `trainer.validate(...)` with
`ckpt_path=trainer.checkpoint_type`. -/
def validate_phase {σ S P E δ : Type} (fw : Framework σ S P E δ) (h1 : Heap σ)
    (trainer : Nat) (datamodule : DataModule δ) (verbose : Bool) :
    Except E (S × Option S) × List (Event S) × Heap σ :=
  match fw.validate (h1.get trainer) datamodule verbose
      (fw.checkpoint_type (h1.get trainer)) with
  | .error e =>
      (.error e,
       [.validateCall trainer verbose (fw.checkpoint_type (h1.get trainer))], h1)
  | .ok vt =>
      match test_phase fw (h1.set trainer vt.2) trainer datamodule verbose vt.1 with
      | (res, tr, h2) =>
          (res,
           .validateCall trainer verbose (fw.checkpoint_type (h1.get trainer)) :: tr,
           h2)

/-- `fit_and_validate` (functional.py, lines 80-110): fit, then validate, then
test exactly when `datamodule.datasets.test` is present.  Returns the
validation/test scores, the trace of delegated calls, and the updated heap. -/
def fit_and_validate {σ S P E δ : Type} (fw : Framework σ S P E δ) (h : Heap σ)
    (trainer model : Nat) (datamodule : DataModule δ) (verbose : Bool) :
    Except E (S × Option S) × List (Event S) × Heap σ :=
  match fw.fit (h.get trainer) (h.get model) datamodule with
  | .error e => (.error e, [.fitCall trainer model], h)
  | .ok tm =>
      match validate_phase fw ((h.set trainer tm.1).set model tm.2) trainer
          datamodule verbose with
      | (res, tr, h') => (res, .fitCall trainer model :: tr, h')

/-- The heap after `model.configure_model()` and
`trainer.init_logger_run(run_id)` on the cloned objects (functional.py,
lines 71-73). -/
def prepare {σ S P E δ : Type} (fw : Framework σ S P E δ) (h1 : Heap σ)
    (trainer model : Nat) (run_id : Option Int) : Heap σ :=
  (h1.set_with model fw.configure_model).set_with trainer
    (fun s => fw.init_logger_run s run_id)

/-- `run_evaluation` (functional.py, lines 49-77): clone the base objects,
configure the cloned model, bracket `fit_and_validate` between
`init_logger_run` and `finish_logger_run` on the cloned trainer.  If
`fit_and_validate` raises, the exception propagates and `finish_logger_run`
is not reached. -/
def run_evaluation {σ S P E δ : Type} (fw : Framework σ S P E δ) (h : Heap σ)
    (base_trainer base_model : Nat) (datamodule : DataModule δ)
    (run_id : Option Int) (verbose : Bool) :
    Except E (S × Option S) × List (Event S) × Heap σ :=
  match clone h base_trainer base_model with
  | ((trainer, model), h1) =>
      match fit_and_validate fw (prepare fw h1 trainer model run_id) trainer model
          datamodule verbose with
      | (.error e, tr, h4) =>
          (.error e,
           .cloneCall base_trainer base_model trainer model ::
             .configureModel model :: .initLoggerRun trainer run_id :: tr, h4)
      | (.ok results, tr, h4) =>
          (.ok results,
           .cloneCall base_trainer base_model trainer model ::
             .configureModel model :: .initLoggerRun trainer run_id ::
               (tr ++ [.finishLoggerRun trainer run_id]),
           h4.set_with trainer (fun s => fw.finish_logger_run s run_id))

/-- The `for run_index in range(n_runs)` loop body of `run_evaluation_session`
(functional.py, lines 37-45), over an explicit list of run indices: each run
calls `run_evaluation` with `run_id = run_index` and the per-run verbosity,
then `recorder.update(validation_scores, test_scores)`.  An exception aborts
the loop and propagates. -/
def run_loop {σ S P E δ : Type} (fw : Framework σ S P E δ)
    (base_trainer base_model : Nat) (datamodule : DataModule δ)
    (run_verbose : Bool) : List Nat → Heap σ →
    Except E Unit × List (Event S) × Heap σ
  | [], h => (.ok (), [], h)
  | i :: rest, h =>
      match run_evaluation fw h base_trainer base_model datamodule
          (some (Int.ofNat i)) run_verbose with
      | (.error e, tr, h1) => (.error e, tr, h1)
      | (.ok scores, tr, h1) =>
          match run_loop fw base_trainer base_model datamodule run_verbose rest h1 with
          | (res, tr2, h2) =>
              (res, tr ++ .recorderUpdate scores.1 scores.2 :: tr2, h2)

/-- `run_evaluation_session` (functional.py, lines 13-46): construct a
`SessionRecorder` with `output_dir=base_trainer.default_log_dir` and
`verbose=verbose`, run `n_runs` evaluations each with `verbose=not verbose`,
feeding each run's scores to the recorder, then `recorder.save()`. -/
def run_evaluation_session {σ S P E δ : Type} (fw : Framework σ S P E δ)
    (h : Heap σ) (base_trainer base_model : Nat) (datamodule : DataModule δ)
    (n_runs : Int) (verbose : Bool) :
    Except E Unit × List (Event S) × Heap σ :=
  match run_loop fw base_trainer base_model datamodule (!verbose)
      (List.range n_runs.toNat) h with
  | (.error e, tr, h1) =>
      (.error e,
       .recorderNew (fw.default_log_dir (h.get base_trainer)) verbose :: tr, h1)
  | (.ok _, tr, h1) =>
      (.ok (),
       .recorderNew (fw.default_log_dir (h.get base_trainer)) verbose ::
         (tr ++ [.recorderSave]), h1)

/-- `infer_model` (functional.py, lines 113-136): clone the base objects and
return the value of `trainer.predict` (the Python annotation says `None`, but
the function body returns the call's result). -/
def infer_model {σ S P E δ : Type} (fw : Framework σ S P E δ) (h : Heap σ)
    (base_trainer base_model : Nat) (datamodule : DataModule δ)
    (return_predictions : Bool) :
    Except E P × List (Event S) × Heap σ :=
  match clone h base_trainer base_model with
  | ((trainer, model), h1) =>
      match fw.predict (h1.get trainer) (h1.get model) datamodule
          return_predictions with
      | .error e =>
          (.error e,
           [.cloneCall base_trainer base_model trainer model,
            .predictCall trainer model return_predictions], h1)
      | .ok q =>
          (.ok q.1,
           [.cloneCall base_trainer base_model trainer model,
            .predictCall trainer model return_predictions],
           (h1.set trainer q.2.1).set model q.2.2)

/-- A framework none of whose fallible calls ever raises. -/
def Framework.Total {σ S P E δ : Type} (fw : Framework σ S P E δ) : Prop :=
  (∀ t m dm, ∃ r, fw.fit t m dm = .ok r) ∧
  (∀ t dm v c, ∃ r, fw.validate t dm v c = .ok r) ∧
  (∀ t dm v c, ∃ r, fw.test t dm v c = .ok r) ∧
  (∀ t m dm b, ∃ r, fw.predict t m dm b = .ok r)

/-- The exception `e` is one that some delegated framework call raises. -/
def Framework.Raises {σ S P E δ : Type} (fw : Framework σ S P E δ) (e : E) : Prop :=
  (∃ t m dm, fw.fit t m dm = .error e) ∨
  (∃ t dm v c, fw.validate t dm v c = .error e) ∨
  (∃ t dm v c, fw.test t dm v c = .error e) ∨
  (∃ t m dm b, fw.predict t m dm b = .error e)

/-- A concrete framework over `Nat` states and scores whose calls always
succeed; used to instantiate the theorems at concrete inputs. -/
def natFramework : Framework Nat Nat Nat Nat Nat where
  fit t m _ := .ok (t + 1, m + 1)
  validate t _ _ _ := .ok (5, t + 1)
  test t _ _ _ := .ok (6, t + 1)
  predict t m _ _ := .ok (9, t + 1, m + 1)
  configure_model s := s + 10
  init_logger_run s _ := s + 100
  finish_logger_run s _ := s + 1000
  checkpoint_type _ := "best"
  default_log_dir _ := "logs"

/-- A concrete framework whose `fit` call raises the exception `7`. -/
def errFramework : Framework Nat Nat Nat Nat Nat :=
  { natFramework with fit := fun _ _ _ => .error 7 }

/-- A concrete heap holding two objects: the base trainer at id `0` and the
base model at id `1`. -/
def natHeap : Heap Nat :=
  ⟨fun i => i, 2⟩

/-- A concrete data module whose test dataset is present. -/
def dmWithTest : DataModule Nat :=
  ⟨⟨some 0⟩⟩

/-- A concrete data module without a test dataset. -/
def dmNoTest : DataModule Nat :=
  ⟨⟨none⟩⟩

theorem natFramework_total : natFramework.Total :=
  ⟨fun t m _ => ⟨(t + 1, m + 1), rfl⟩,
   fun t _ _ _ => ⟨(5, t + 1), rfl⟩,
   fun t _ _ _ => ⟨(6, t + 1), rfl⟩,
   fun t m _ _ => ⟨(9, t + 1, m + 1), rfl⟩⟩

theorem Heap.get_set_self {σ : Type} (h : Heap σ) (i : Nat) (s : σ) :
    (h.set i s).get i = s := by
  simp [Heap.get, Heap.set]

theorem Heap.get_set_ne {σ : Type} (h : Heap σ) {i j : Nat} (s : σ) (hij : j ≠ i) :
    (h.set i s).get j = h.get j := by
  simp [Heap.get, Heap.set, hij]

theorem Heap.nextId_set {σ : Type} (h : Heap σ) (i : Nat) (s : σ) :
    (h.set i s).nextId = h.nextId := rfl

/-- The heap produced by `clone`: two fresh objects holding copies of the base
states. -/
def cloneHeap {σ : Type} (h : Heap σ) (bT bM : Nat) : Heap σ :=
  ⟨fun j =>
     if j = h.nextId + 1 then h.get bM
     else if j = h.nextId then h.get bT
     else h.store j,
   h.nextId + 2⟩

theorem clone_eq {σ : Type} (h : Heap σ) (bT bM : Nat) :
    clone h bT bM = ((h.nextId, h.nextId + 1), cloneHeap h bT bM) := rfl

theorem cloneHeap_nextId {σ : Type} (h : Heap σ) (bT bM : Nat) :
    (cloneHeap h bT bM).nextId = h.nextId + 2 := rfl

theorem cloneHeap_get_lt {σ : Type} (h : Heap σ) (bT bM : Nat) {i : Nat}
    (hi : i < h.nextId) :
    (cloneHeap h bT bM).get i = h.get i := by
  have h1 : i ≠ h.nextId := Nat.ne_of_lt hi
  have h2 : i ≠ h.nextId + 1 := Nat.ne_of_lt (Nat.lt_succ_of_lt hi)
  simp [cloneHeap, Heap.get, h1, h2]

theorem cloneHeap_get_trainer {σ : Type} (h : Heap σ) (bT bM : Nat) :
    (cloneHeap h bT bM).get h.nextId = h.get bT := by
  simp [cloneHeap, Heap.get, Nat.ne_of_lt (Nat.lt_succ_self h.nextId)]

theorem cloneHeap_get_model {σ : Type} (h : Heap σ) (bT bM : Nat) :
    (cloneHeap h bT bM).get (h.nextId + 1) = h.get bM := by
  simp [cloneHeap, Heap.get]

theorem prepare_nextId {σ S P E δ : Type} (fw : Framework σ S P E δ)
    (h1 : Heap σ) (t m : Nat) (rid : Option Int) :
    (prepare fw h1 t m rid).nextId = h1.nextId := rfl

theorem prepare_get_ne {σ S P E δ : Type} (fw : Framework σ S P E δ)
    (h1 : Heap σ) {t m i : Nat} (rid : Option Int) (hit : i ≠ t) (him : i ≠ m) :
    (prepare fw h1 t m rid).get i = h1.get i := by
  unfold prepare Heap.set_with
  rw [Heap.get_set_ne _ _ hit, Heap.get_set_ne _ _ him]

theorem test_phase_frame {σ S P E δ : Type} (fw : Framework σ S P E δ)
    (h2 : Heap σ) (t : Nat) (dm : DataModule δ) (v : Bool) (vs : S) :
    (test_phase fw h2 t dm v vs).2.2.nextId = h2.nextId ∧
    ∀ i, i ≠ t → (test_phase fw h2 t dm v vs).2.2.get i = h2.get i := by
  unfold test_phase
  split
  · exact ⟨rfl, fun i _ => rfl⟩
  · split
    · exact ⟨rfl, fun i _ => rfl⟩
    · exact ⟨rfl, fun i hit => Heap.get_set_ne _ _ hit⟩

theorem validate_phase_frame {σ S P E δ : Type} (fw : Framework σ S P E δ)
    (h1 : Heap σ) (t : Nat) (dm : DataModule δ) (v : Bool) :
    (validate_phase fw h1 t dm v).2.2.nextId = h1.nextId ∧
    ∀ i, i ≠ t → (validate_phase fw h1 t dm v).2.2.get i = h1.get i := by
  unfold validate_phase
  split
  · exact ⟨rfl, fun i _ => rfl⟩
  · rename_i vt hv
    split
    rename_i res tr h2 heq
    have hf := test_phase_frame fw (h1.set t vt.2) t dm v vt.1
    rw [heq] at hf
    refine ⟨hf.1, fun i hit => ?_⟩
    exact (hf.2 i hit).trans (Heap.get_set_ne _ _ hit)

theorem fit_and_validate_frame {σ S P E δ : Type} (fw : Framework σ S P E δ)
    (h : Heap σ) (t m : Nat) (dm : DataModule δ) (v : Bool) :
    (fit_and_validate fw h t m dm v).2.2.nextId = h.nextId ∧
    ∀ i, i ≠ t → i ≠ m →
      (fit_and_validate fw h t m dm v).2.2.get i = h.get i := by
  unfold fit_and_validate
  split
  · exact ⟨rfl, fun i _ _ => rfl⟩
  · rename_i tm hfit
    split
    rename_i res tr h' heq
    have hf := validate_phase_frame fw ((h.set t tm.1).set m tm.2) t dm v
    rw [heq] at hf
    refine ⟨hf.1, fun i hit him => ?_⟩
    rw [hf.2 i hit, Heap.get_set_ne _ _ him, Heap.get_set_ne _ _ hit]

theorem Heap.nextId_set_with {σ : Type} (h : Heap σ) (i : Nat) (f : σ → σ) :
    (h.set_with i f).nextId = h.nextId := rfl

theorem Heap.get_set_with_ne {σ : Type} (h : Heap σ) {i j : Nat} (f : σ → σ)
    (hij : j ≠ i) : (h.set_with i f).get j = h.get j :=
  Heap.get_set_ne _ _ hij

theorem run_evaluation_frame {σ S P E δ : Type} (fw : Framework σ S P E δ)
    (h : Heap σ) (bT bM : Nat) (dm : DataModule δ) (rid : Option Int) (v : Bool) :
    (run_evaluation fw h bT bM dm rid v).2.2.nextId = h.nextId + 2 ∧
    ∀ i, i < h.nextId →
      (run_evaluation fw h bT bM dm rid v).2.2.get i = h.get i := by
  have hfv := fit_and_validate_frame fw
      (prepare fw (cloneHeap h bT bM) h.nextId (h.nextId + 1) rid)
      h.nextId (h.nextId + 1) dm v
  rw [prepare_nextId, cloneHeap_nextId] at hfv
  unfold run_evaluation
  simp only [clone_eq]
  split
  · rename_i e tr h4 heq
    rw [heq] at hfv
    dsimp only at hfv ⊢
    refine ⟨hfv.1, fun i hi => ?_⟩
    have h1 : i ≠ h.nextId := Nat.ne_of_lt hi
    have h2 : i ≠ h.nextId + 1 := Nat.ne_of_lt (Nat.lt_succ_of_lt hi)
    rw [hfv.2 i h1 h2, prepare_get_ne fw _ rid h1 h2, cloneHeap_get_lt h bT bM hi]
  · rename_i results tr h4 heq
    rw [heq] at hfv
    dsimp only at hfv ⊢
    refine ⟨?_, fun i hi => ?_⟩
    · rw [Heap.nextId_set_with]
      exact hfv.1
    · have h1 : i ≠ h.nextId := Nat.ne_of_lt hi
      have h2 : i ≠ h.nextId + 1 := Nat.ne_of_lt (Nat.lt_succ_of_lt hi)
      rw [Heap.get_set_with_ne _ _ h1, hfv.2 i h1 h2,
        prepare_get_ne fw _ rid h1 h2, cloneHeap_get_lt h bT bM hi]

theorem run_loop_frame {σ S P E δ : Type} (fw : Framework σ S P E δ)
    (bT bM : Nat) (dm : DataModule δ) (rv : Bool) :
    ∀ (idxs : List Nat) (h : Heap σ),
      h.nextId ≤ (run_loop fw bT bM dm rv idxs h).2.2.nextId ∧
      ∀ i, i < h.nextId →
        (run_loop fw bT bM dm rv idxs h).2.2.get i = h.get i := by
  intro idxs
  induction idxs with
  | nil => exact fun h => ⟨Nat.le_refl _, fun i _ => rfl⟩
  | cons a rest ih =>
      intro h
      have hre := run_evaluation_frame fw h bT bM dm (some (Int.ofNat a)) rv
      simp only [run_loop]
      split
      · rename_i e tr h1 heq
        rw [heq] at hre
        dsimp only at hre ⊢
        refine ⟨?_, fun i hi => hre.2 i hi⟩
        rw [hre.1]
        omega
      · rename_i scores tr h1 heq
        rw [heq] at hre
        dsimp only at hre ⊢
        have hih := ih h1
        have hn1 : h1.nextId = h.nextId + 2 := hre.1
        refine ⟨le_trans (by omega) hih.1, fun i hi => ?_⟩
        have hi1 : i < h1.nextId := by omega
        exact (hih.2 i hi1).trans (hre.2 i hi)

theorem run_evaluation_session_frame {σ S P E δ : Type}
    (fw : Framework σ S P E δ) (h : Heap σ) (bT bM : Nat) (dm : DataModule δ)
    (n : Int) (v : Bool) :
    ∀ i, i < h.nextId →
      (run_evaluation_session fw h bT bM dm n v).2.2.get i = h.get i := by
  have hl := run_loop_frame fw bT bM dm (!v) (List.range n.toNat) h
  unfold run_evaluation_session
  split
  · rename_i e tr h1 heq
    rw [heq] at hl
    exact fun i hi => hl.2 i hi
  · rename_i u tr h1 heq
    rw [heq] at hl
    exact fun i hi => hl.2 i hi

theorem infer_model_frame {σ S P E δ : Type} (fw : Framework σ S P E δ)
    (h : Heap σ) (bT bM : Nat) (dm : DataModule δ) (rp : Bool) :
    ∀ i, i < h.nextId → (infer_model fw h bT bM dm rp).2.2.get i = h.get i := by
  unfold infer_model
  simp only [clone_eq]
  split
  · exact fun i hi => cloneHeap_get_lt h bT bM hi
  · rename_i q heq
    intro i hi
    have h1 : i ≠ h.nextId := Nat.ne_of_lt hi
    have h2 : i ≠ h.nextId + 1 := Nat.ne_of_lt (Nat.lt_succ_of_lt hi)
    show (((cloneHeap h bT bM).set h.nextId q.2.1).set (h.nextId + 1) q.2.2).get i
      = h.get i
    rw [Heap.get_set_ne _ _ h2, Heap.get_set_ne _ _ h1, cloneHeap_get_lt h bT bM hi]

theorem test_phase_total_spec {σ S P E δ : Type} (fw : Framework σ S P E δ)
    (h2 : Heap σ) (t : Nat) (dm : DataModule δ) (v : Bool) (vs : S)
    (hT : fw.Total) :
    ∃ ts ttail h',
      test_phase fw h2 t dm v vs = (.ok (vs, ts), ttail, h') ∧
      ((dm.datasets.test = none ∧ ts = none ∧ ttail = []) ∨
       (∃ d ts0 tck st st', dm.datasets.test = some d ∧ ts = some ts0 ∧
          ttail = [Event.testCall t v tck] ∧ fw.test st dm v tck = .ok (ts0, st'))) := by
  unfold test_phase
  split
  · rename_i hdm
    exact ⟨none, [], h2, rfl, .inl ⟨hdm, rfl, rfl⟩⟩
  · rename_i d hdm
    obtain ⟨tt, htt⟩ := hT.2.2.1 (h2.get t) dm v (fw.checkpoint_type (h2.get t))
    simp only [htt]
    exact ⟨some tt.1, [Event.testCall t v (fw.checkpoint_type (h2.get t))],
      h2.set t tt.2, rfl,
      .inr ⟨d, tt.1, fw.checkpoint_type (h2.get t), h2.get t, tt.2, hdm, rfl, rfl, htt⟩⟩

theorem validate_phase_total_spec {σ S P E δ : Type} (fw : Framework σ S P E δ)
    (h1 : Heap σ) (t : Nat) (dm : DataModule δ) (v : Bool) (hT : fw.Total) :
    ∃ vs ts ck ttail h',
      validate_phase fw h1 t dm v =
        (.ok (vs, ts), Event.validateCall t v ck :: ttail, h') ∧
      ((dm.datasets.test = none ∧ ts = none ∧ ttail = []) ∨
       (∃ d ts0 tck st st', dm.datasets.test = some d ∧ ts = some ts0 ∧
          ttail = [Event.testCall t v tck] ∧ fw.test st dm v tck = .ok (ts0, st'))) := by
  obtain ⟨vt, hv⟩ := hT.2.1 (h1.get t) dm v (fw.checkpoint_type (h1.get t))
  obtain ⟨ts, ttail, h', hspec, hcase⟩ :=
    test_phase_total_spec fw (h1.set t vt.2) t dm v vt.1 hT
  unfold validate_phase
  simp only [hv, hspec]
  exact ⟨vt.1, ts, fw.checkpoint_type (h1.get t), ttail, h', rfl, hcase⟩

theorem fit_and_validate_total_spec {σ S P E δ : Type} (fw : Framework σ S P E δ)
    (h : Heap σ) (t m : Nat) (dm : DataModule δ) (v : Bool) (hT : fw.Total) :
    ∃ vs ts ck ttail h',
      fit_and_validate fw h t m dm v =
        (.ok (vs, ts),
         Event.fitCall t m :: Event.validateCall t v ck :: ttail, h') ∧
      ((dm.datasets.test = none ∧ ts = none ∧ ttail = []) ∨
       (∃ d ts0 tck st st', dm.datasets.test = some d ∧ ts = some ts0 ∧
          ttail = [Event.testCall t v tck] ∧ fw.test st dm v tck = .ok (ts0, st'))) := by
  obtain ⟨tm', hf⟩ := hT.1 (h.get t) (h.get m) dm
  obtain ⟨vs, ts, ck, ttail, h', hspec, hcase⟩ :=
    validate_phase_total_spec fw ((h.set t tm'.1).set m tm'.2) t dm v hT
  unfold fit_and_validate
  simp only [hf, hspec]
  exact ⟨vs, ts, ck, ttail, h', rfl, hcase⟩

theorem run_evaluation_total_spec {σ S P E δ : Type} (fw : Framework σ S P E δ)
    (h : Heap σ) (bT bM : Nat) (dm : DataModule δ) (rid : Option Int) (v : Bool)
    (hT : fw.Total) :
    ∃ vs ts ck ttail h',
      run_evaluation fw h bT bM dm rid v =
        (.ok (vs, ts),
         Event.cloneCall bT bM h.nextId (h.nextId + 1) ::
         Event.configureModel (h.nextId + 1) ::
         Event.initLoggerRun h.nextId rid ::
         Event.fitCall h.nextId (h.nextId + 1) ::
         Event.validateCall h.nextId v ck ::
         (ttail ++ [Event.finishLoggerRun h.nextId rid]), h') ∧
      ((dm.datasets.test = none ∧ ts = none ∧ ttail = []) ∨
       (∃ d ts0 tck st st', dm.datasets.test = some d ∧ ts = some ts0 ∧
          ttail = [Event.testCall h.nextId v tck] ∧
          fw.test st dm v tck = .ok (ts0, st'))) := by
  obtain ⟨vs, ts, ck, ttail, h', hspec, hcase⟩ :=
    fit_and_validate_total_spec fw
      (prepare fw (cloneHeap h bT bM) h.nextId (h.nextId + 1) rid)
      h.nextId (h.nextId + 1) dm v hT
  unfold run_evaluation
  simp only [clone_eq, hspec]
  exact ⟨vs, ts, ck, ttail, _, rfl, hcase⟩

theorem run_evaluation_trace_stats {σ S P E δ : Type} (fw : Framework σ S P E δ)
    (h : Heap σ) (bT bM : Nat) (dm : DataModule δ) (rid : Option Int) (v : Bool)
    (hT : fw.Total) :
    (run_evaluation fw h bT bM dm rid v).2.1.countP Event.isUpdate = 0 ∧
    (run_evaluation fw h bT bM dm rid v).2.1.countP Event.isSave = 0 ∧
    (run_evaluation fw h bT bM dm rid v).2.1.countP Event.isFinish = 1 ∧
    (run_evaluation fw h bT bM dm rid v).2.1.filterMap Event.initRunId = [rid] := by
  obtain ⟨vs, ts, ck, ttail, h', hspec, hcase⟩ :=
    run_evaluation_total_spec fw h bT bM dm rid v hT
  rw [hspec]
  rcases hcase with ⟨-, -, ht⟩ | ⟨d, ts0, tck, st, st', -, -, ht, -⟩ <;>
    subst ht <;>
    simp [Event.isUpdate, Event.isSave, Event.isFinish, Event.initRunId,
      List.countP_cons, List.countP_append, List.filterMap_cons]

theorem run_loop_total_ok {σ S P E δ : Type} (fw : Framework σ S P E δ)
    (bT bM : Nat) (dm : DataModule δ) (rv : Bool) (hT : fw.Total) :
    ∀ (idxs : List Nat) (h : Heap σ),
      (run_loop fw bT bM dm rv idxs h).1 = .ok () := by
  intro idxs
  induction idxs with
  | nil => exact fun h => rfl
  | cons a rest ih =>
      intro h
      obtain ⟨vs, ts, ck, ttail, h', hspec, -⟩ :=
        run_evaluation_total_spec fw h bT bM dm (some (Int.ofNat a)) rv hT
      simp only [run_loop, hspec]
      exact ih h'

theorem run_loop_total_counts {σ S P E δ : Type} (fw : Framework σ S P E δ)
    (bT bM : Nat) (dm : DataModule δ) (rv : Bool) (hT : fw.Total) :
    ∀ (idxs : List Nat) (h : Heap σ),
      (run_loop fw bT bM dm rv idxs h).2.1.countP Event.isUpdate = idxs.length ∧
      (run_loop fw bT bM dm rv idxs h).2.1.countP Event.isSave = 0 ∧
      (run_loop fw bT bM dm rv idxs h).2.1.filterMap Event.initRunId =
        idxs.map (fun i => some (Int.ofNat i)) := by
  intro idxs
  induction idxs with
  | nil => exact fun h => ⟨rfl, rfl, rfl⟩
  | cons a rest ih =>
      intro h
      obtain ⟨vs, ts, ck, ttail, h', hspec, hcase⟩ :=
        run_evaluation_total_spec fw h bT bM dm (some (Int.ofNat a)) rv hT
      have hih := ih h'
      rcases hcase with ⟨-, -, ht⟩ | ⟨d, ts0, tck, st, st', -, -, ht, -⟩ <;>
        subst ht <;>
        simp only [run_loop, hspec] <;>
        simp [List.countP_cons, List.countP_append,
          Event.isUpdate, Event.isSave, Event.initRunId, hih.1, hih.2.1, hih.2.2]

/-- Claim C3:  For every `n_runs >= 1` and a never-raising framework,
`run_evaluation_session` performs exactly `n_runs` runs: the
`init_logger_run` events carry run ids `0, 1, ..., n_runs - 1` in increasing
order, `recorder.update` is called exactly `n_runs` times (once per run),
and `recorder.save` is called exactly once, after all runs, as the final
event of the session. -/
theorem session_runs_and_recording {σ S P E δ : Type} (fw : Framework σ S P E δ)
    (h : Heap σ) (bT bM : Nat) (dm : DataModule δ) (n : Int) (v : Bool)
    (hT : fw.Total) (hn : 1 ≤ n) :
    (run_evaluation_session fw h bT bM dm n v).1 = .ok () ∧
    (run_evaluation_session fw h bT bM dm n v).2.1.filterMap Event.initRunId =
      (List.range n.toNat).map (fun i => some (Int.ofNat i)) ∧
    (run_evaluation_session fw h bT bM dm n v).2.1.countP Event.isUpdate =
      n.toNat ∧
    (run_evaluation_session fw h bT bM dm n v).2.1.countP Event.isSave = 1 ∧
    ∃ pre, (run_evaluation_session fw h bT bM dm n v).2.1 =
      pre ++ [Event.recorderSave] ∧ pre.countP Event.isSave = 0 := by
  have hok := run_loop_total_ok fw bT bM dm (!v) hT (List.range n.toNat) h
  have hcounts := run_loop_total_counts fw bT bM dm (!v) hT (List.range n.toNat) h
  unfold run_evaluation_session
  split
  · rename_i e tr h1 heq
    rw [heq] at hok
    exact absurd hok (by simp)
  · rename_i u tr h1 heq
    rw [heq] at hcounts
    refine ⟨rfl, ?_, ?_, ?_,
      ⟨Event.recorderNew (fw.default_log_dir (h.get bT)) v :: tr, rfl, ?_⟩⟩
    · simpa [Event.initRunId, List.filterMap_cons, List.filterMap_append]
        using hcounts.2.2
    · simpa [Event.isUpdate, List.countP_cons, List.countP_append]
        using hcounts.1
    · simpa [Event.isSave, List.countP_cons, List.countP_append]
        using hcounts.2.1
    · simpa [Event.isSave, List.countP_cons] using hcounts.2.1

/-- Witness for claim C3: a session of two runs over the `Nat` framework. -/
theorem session_runs_and_recording_witness :
    (run_evaluation_session natFramework natHeap 0 1 dmWithTest 2 true).1
      = .ok () ∧
    (run_evaluation_session natFramework natHeap 0 1 dmWithTest 2
        true).2.1.countP Event.isUpdate = (2 : Int).toNat :=
  ⟨(session_runs_and_recording natFramework natHeap 0 1 dmWithTest 2 true
      natFramework_total (by decide)).1,
   (session_runs_and_recording natFramework natHeap 0 1 dmWithTest 2 true
      natFramework_total (by decide)).2.2.1⟩

theorem test_phase_verbose {σ S P E δ : Type} (fw : Framework σ S P E δ)
    (h2 : Heap σ) (t : Nat) (dm : DataModule δ) (v : Bool) (vs : S) :
    ∀ e ∈ (test_phase fw h2 t dm v vs).2.1,
      ∀ b, e.runVerbose = some b → b = v := by
  unfold test_phase
  split
  · intro e he
    simp at he
  · split <;>
    · intro e he b hb
      simp at he
      subst he
      simp [Event.runVerbose] at hb
      exact hb.symm

theorem validate_phase_verbose {σ S P E δ : Type} (fw : Framework σ S P E δ)
    (h1 : Heap σ) (t : Nat) (dm : DataModule δ) (v : Bool) :
    ∀ e ∈ (validate_phase fw h1 t dm v).2.1,
      ∀ b, e.runVerbose = some b → b = v := by
  unfold validate_phase
  split
  · intro e he b hb
    simp at he
    subst he
    simp [Event.runVerbose] at hb
    exact hb.symm
  · rename_i vt hv
    split
    rename_i res tr h2 heq
    intro e he b hb
    rcases List.mem_cons.1 he with h | h
    · subst h
      simp [Event.runVerbose] at hb
      exact hb.symm
    · have := test_phase_verbose fw (h1.set t vt.2) t dm v vt.1
      rw [heq] at this
      exact this e h b hb

theorem fit_and_validate_verbose {σ S P E δ : Type} (fw : Framework σ S P E δ)
    (h : Heap σ) (t m : Nat) (dm : DataModule δ) (v : Bool) :
    ∀ e ∈ (fit_and_validate fw h t m dm v).2.1,
      ∀ b, e.runVerbose = some b → b = v := by
  unfold fit_and_validate
  split
  · intro e he b hb
    simp at he
    subst he
    simp [Event.runVerbose] at hb
  · rename_i tm hf
    split
    rename_i res tr h' heq
    intro e he b hb
    rcases List.mem_cons.1 he with h1 | h1
    · subst h1
      simp [Event.runVerbose] at hb
    · have := validate_phase_verbose fw ((h.set t tm.1).set m tm.2) t dm v
      rw [heq] at this
      exact this e h1 b hb

theorem run_evaluation_verbose {σ S P E δ : Type} (fw : Framework σ S P E δ)
    (h : Heap σ) (bT bM : Nat) (dm : DataModule δ) (rid : Option Int) (v : Bool) :
    ∀ e ∈ (run_evaluation fw h bT bM dm rid v).2.1,
      ∀ b, e.runVerbose = some b → b = v := by
  have hfv := fit_and_validate_verbose fw
      (prepare fw (cloneHeap h bT bM) h.nextId (h.nextId + 1) rid)
      h.nextId (h.nextId + 1) dm v
  unfold run_evaluation
  simp only [clone_eq]
  split
  · rename_i e tr h4 heq
    rw [heq] at hfv
    intro e' he' b hb
    rcases List.mem_cons.1 he' with h1 | h1
    · subst h1; simp [Event.runVerbose] at hb
    rcases List.mem_cons.1 h1 with h2 | h2
    · subst h2; simp [Event.runVerbose] at hb
    rcases List.mem_cons.1 h2 with h3 | h3
    · subst h3; simp [Event.runVerbose] at hb
    · exact hfv e' h3 b hb
  · rename_i results tr h4 heq
    rw [heq] at hfv
    intro e' he' b hb
    rcases List.mem_cons.1 he' with h1 | h1
    · subst h1; simp [Event.runVerbose] at hb
    rcases List.mem_cons.1 h1 with h2 | h2
    · subst h2; simp [Event.runVerbose] at hb
    rcases List.mem_cons.1 h2 with h3 | h3
    · subst h3; simp [Event.runVerbose] at hb
    rcases List.mem_append.1 h3 with h4' | h4'
    · exact hfv e' h4' b hb
    · simp at h4'
      subst h4'
      simp [Event.runVerbose] at hb

theorem run_loop_verbose {σ S P E δ : Type} (fw : Framework σ S P E δ)
    (bT bM : Nat) (dm : DataModule δ) (rv : Bool) :
    ∀ (idxs : List Nat) (h : Heap σ),
      ∀ e ∈ (run_loop fw bT bM dm rv idxs h).2.1,
        ∀ b, e.runVerbose = some b → b = rv := by
  intro idxs
  induction idxs with
  | nil =>
      intro h e he
      simp [run_loop] at he
  | cons a rest ih =>
      intro h
      have hre := run_evaluation_verbose fw h bT bM dm (some (Int.ofNat a)) rv
      simp only [run_loop]
      split
      · rename_i e tr h1 heq
        rw [heq] at hre
        exact fun e' he' => hre e' he'
      · rename_i scores tr h1 heq
        rw [heq] at hre
        intro e' he' b hb
        rcases List.mem_append.1 he' with h1' | h1'
        · exact hre e' h1' b hb
        rcases List.mem_cons.1 h1' with h2' | h2'
        · subst h2'; simp [Event.runVerbose] at hb
        · exact ih _ e' h2' b hb

/-- Claim C4:  In every call to `run_evaluation_session`, the
`SessionRecorder` is constructed with `verbose = verbose` (the session's
first trace event), while every per-run `trainer.validate` / `trainer.test`
call receives `verbose = not verbose`: per-run verbosity is the exact
negation of session-level verbosity. -/
theorem session_verbosity_toggle {σ S P E δ : Type} (fw : Framework σ S P E δ)
    (h : Heap σ) (bT bM : Nat) (dm : DataModule δ) (n : Int) (v : Bool) :
    (run_evaluation_session fw h bT bM dm n v).2.1.head? =
      some (Event.recorderNew (fw.default_log_dir (h.get bT)) v) ∧
    ∀ e ∈ (run_evaluation_session fw h bT bM dm n v).2.1,
      ∀ b, e.runVerbose = some b → b = !v := by
  have hl := run_loop_verbose fw bT bM dm (!v) (List.range n.toNat) h
  unfold run_evaluation_session
  split
  · rename_i e tr h1 heq
    rw [heq] at hl
    refine ⟨rfl, fun e' he' b hb => ?_⟩
    rcases List.mem_cons.1 he' with h1' | h1'
    · subst h1'; simp [Event.runVerbose] at hb
    · exact hl e' h1' b hb
  · rename_i u tr h1 heq
    rw [heq] at hl
    refine ⟨rfl, fun e' he' b hb => ?_⟩
    rcases List.mem_cons.1 he' with h1' | h1'
    · subst h1'; simp [Event.runVerbose] at hb
    rcases List.mem_append.1 h1' with h2' | h2'
    · exact hl e' h2' b hb
    · simp at h2'
      subst h2'
      simp [Event.runVerbose] at hb

/-- Witness for claim C4: with session verbosity `true`, the first event is the
recorder construction with `verbose = true`, and the `trainer.validate` call
of the run (on cloned trainer id `2`) received `verbose = false`. -/
theorem session_verbosity_toggle_witness :
    (run_evaluation_session natFramework natHeap 0 1 dmWithTest 1 true).2.1.head?
      = some (Event.recorderNew "logs" true) ∧ (false = !true) :=
  ⟨(session_verbosity_toggle natFramework natHeap 0 1 dmWithTest 1 true).1,
   (session_verbosity_toggle natFramework natHeap 0 1 dmWithTest 1 true).2
     (Event.validateCall 2 false "best") (by decide) false (by decide)⟩

theorem run_loop_init_position {σ S P E δ : Type} (fw : Framework σ S P E δ)
    (bT bM : Nat) (dm : DataModule δ) (rv : Bool) (hT : fw.Total) :
    ∀ (idxs : List Nat) (h : Heap σ) (k : Nat) (hk : k < idxs.length),
      ∃ tid pre post,
        (run_loop fw bT bM dm rv idxs h).2.1 =
          pre ++ Event.initLoggerRun tid
            (some (Int.ofNat (idxs.get ⟨k, hk⟩))) :: post ∧
        pre.countP Event.isUpdate = k ∧ pre.countP Event.isFinish = k := by
  intro idxs
  induction idxs with
  | nil =>
      intro h k hk
      exact absurd hk (by simp)
  | cons a rest ih =>
      intro h k hk
      obtain ⟨vs, ts, ck, ttail, h', hspec, hcase⟩ :=
        run_evaluation_total_spec fw h bT bM dm (some (Int.ofNat a)) rv hT
      simp only [run_loop, hspec]
      cases k with
      | zero =>
          refine ⟨h.nextId,
            [Event.cloneCall bT bM h.nextId (h.nextId + 1),
             Event.configureModel (h.nextId + 1)],
            Event.fitCall h.nextId (h.nextId + 1) ::
              Event.validateCall h.nextId rv ck ::
                ((ttail ++ [Event.finishLoggerRun h.nextId (some (Int.ofNat a))]) ++
                  Event.recorderUpdate vs ts ::
                    (run_loop fw bT bM dm rv rest h').2.1),
            ?_, rfl, rfl⟩
          simp [List.cons_append, List.append_assoc]
      | succ k' =>
          have hk' : k' < rest.length := by simpa using hk
          obtain ⟨tid, pre, post, hpre, hupd, hfin⟩ := ih h' k' hk'
          refine ⟨tid,
            Event.cloneCall bT bM h.nextId (h.nextId + 1) ::
              Event.configureModel (h.nextId + 1) ::
                Event.initLoggerRun h.nextId (some (Int.ofNat a)) ::
                  Event.fitCall h.nextId (h.nextId + 1) ::
                    Event.validateCall h.nextId rv ck ::
                      ((ttail ++
                          [Event.finishLoggerRun h.nextId (some (Int.ofNat a))]) ++
                        [Event.recorderUpdate vs ts]) ++ pre,
            post, ?_, ?_, ?_⟩
          · rw [List.append_assoc, hpre]
            simp [List.cons_append, List.append_assoc]
          · rcases hcase with ⟨-, -, ht⟩ | ⟨d, ts0, tck, st, st', -, -, ht, -⟩ <;>
              subst ht <;>
              simp [List.countP_append, List.countP_cons, Event.isUpdate, hupd]
          · rcases hcase with ⟨-, -, ht⟩ | ⟨d, ts0, tck, st, st', -, -, ht, -⟩ <;>
              subst ht <;>
              simp [List.countP_append, List.countP_cons, Event.isFinish, hfin]

theorem run_loop_update_position {σ S P E δ : Type} (fw : Framework σ S P E δ)
    (bT bM : Nat) (dm : DataModule δ) (rv : Bool) (hT : fw.Total) :
    ∀ (idxs : List Nat) (h : Heap σ) (k : Nat), k < idxs.length →
      ∃ vs ts pre post,
        (run_loop fw bT bM dm rv idxs h).2.1 =
          pre ++ Event.recorderUpdate vs ts :: post ∧
        pre.countP Event.isFinish = k + 1 ∧ pre.countP Event.isUpdate = k := by
  intro idxs
  induction idxs with
  | nil =>
      intro h k hk
      exact absurd hk (by simp)
  | cons a rest ih =>
      intro h k hk
      obtain ⟨vs, ts, ck, ttail, h', hspec, hcase⟩ :=
        run_evaluation_total_spec fw h bT bM dm (some (Int.ofNat a)) rv hT
      simp only [run_loop, hspec]
      cases k with
      | zero =>
          refine ⟨vs, ts,
            Event.cloneCall bT bM h.nextId (h.nextId + 1) ::
              Event.configureModel (h.nextId + 1) ::
                Event.initLoggerRun h.nextId (some (Int.ofNat a)) ::
                  Event.fitCall h.nextId (h.nextId + 1) ::
                    Event.validateCall h.nextId rv ck ::
                      (ttail ++
                        [Event.finishLoggerRun h.nextId (some (Int.ofNat a))]),
            (run_loop fw bT bM dm rv rest h').2.1, rfl, ?_, ?_⟩
          · rcases hcase with ⟨-, -, ht⟩ | ⟨d, ts0, tck, st, st', -, -, ht, -⟩ <;>
              subst ht <;>
              simp [List.countP_append, List.countP_cons, Event.isFinish]
          · rcases hcase with ⟨-, -, ht⟩ | ⟨d, ts0, tck, st, st', -, -, ht, -⟩ <;>
              subst ht <;>
              simp [List.countP_append, List.countP_cons, Event.isUpdate]
      | succ k' =>
          have hk' : k' < rest.length := by simpa using hk
          obtain ⟨vs', ts', pre, post, hpre, hfin, hupd⟩ := ih h' k' hk'
          refine ⟨vs', ts',
            Event.cloneCall bT bM h.nextId (h.nextId + 1) ::
              Event.configureModel (h.nextId + 1) ::
                Event.initLoggerRun h.nextId (some (Int.ofNat a)) ::
                  Event.fitCall h.nextId (h.nextId + 1) ::
                    Event.validateCall h.nextId rv ck ::
                      ((ttail ++
                          [Event.finishLoggerRun h.nextId (some (Int.ofNat a))]) ++
                        [Event.recorderUpdate vs ts]) ++ pre,
            post, ?_, ?_, ?_⟩
          · rw [List.append_assoc, hpre]
            simp [List.cons_append, List.append_assoc]
          · rcases hcase with ⟨-, -, ht⟩ | ⟨d, ts0, tck, st, st', -, -, ht, -⟩ <;>
              subst ht <;>
              simp [List.countP_append, List.countP_cons, Event.isFinish, hfin]
          · rcases hcase with ⟨-, -, ht⟩ | ⟨d, ts0, tck, st, st', -, -, ht, -⟩ <;>
              subst ht <;>
              simp [List.countP_append, List.countP_cons, Event.isUpdate, hupd]

/-- Claim C7:  Execution is strictly sequential: the module's behaviour is a
single linear trace, and in the session trace the `init_logger_run` event
that begins run `k` is preceded by exactly `k` `recorder.update` events and
exactly `k` `finish_logger_run` events — run `k` begins only after each of
runs `0, ..., k-1` has completed and had its scores recorded. -/
theorem session_sequential {σ S P E δ : Type} (fw : Framework σ S P E δ)
    (h : Heap σ) (bT bM : Nat) (dm : DataModule δ) (n : Int) (v : Bool)
    (hT : fw.Total) :
    ∀ k, k < n.toNat →
      ∃ tid pre post,
        (run_evaluation_session fw h bT bM dm n v).2.1 =
          pre ++ Event.initLoggerRun tid (some (Int.ofNat k)) :: post ∧
        pre.countP Event.isUpdate = k ∧ pre.countP Event.isFinish = k := by
  intro k hk
  have hk' : k < (List.range n.toNat).length := by simpa using hk
  obtain ⟨tid, pre, post, hpre, hupd, hfin⟩ :=
    run_loop_init_position fw bT bM dm (!v) hT (List.range n.toNat) h k hk'
  rw [List.get_range] at hpre
  have hok := run_loop_total_ok fw bT bM dm (!v) hT (List.range n.toNat) h
  unfold run_evaluation_session
  split
  · rename_i e tr h1 heq
    rw [heq] at hok
    exact absurd hok (by simp)
  · rename_i u tr h1 heq
    rw [heq] at hpre
    refine ⟨tid, Event.recorderNew (fw.default_log_dir (h.get bT)) v :: pre,
      post ++ [Event.recorderSave], ?_, ?_, ?_⟩
    · show Event.recorderNew (fw.default_log_dir (h.get bT)) v ::
        (tr ++ [Event.recorderSave]) = _
      rw [show tr = pre ++ Event.initLoggerRun tid (some (Int.ofNat k)) :: post
        from hpre]
      simp [List.cons_append, List.append_assoc]
    · simp [List.countP_cons, Event.isUpdate, hupd]
    · simp [List.countP_cons, Event.isFinish, hfin]

/-- Witness for claim C7: in a two-run session, the `init_logger_run` event of
run `1` is preceded by exactly one `recorder.update` and one
`finish_logger_run` event. -/
theorem session_sequential_witness :
    ∃ tid pre post,
      (run_evaluation_session natFramework natHeap 0 1 dmWithTest 2
          true).2.1 =
        pre ++ Event.initLoggerRun tid (some (Int.ofNat 1)) :: post ∧
      pre.countP Event.isUpdate = 1 ∧ pre.countP Event.isFinish = 1 :=
  session_sequential natFramework natHeap 0 1 dmWithTest 2 true
    natFramework_total 1 (by decide)

/-- Claim C5:  Within every single run the phases execute in the fixed order
clone → configure → init logger → fit → validate → test (when performed) →
finish logger: the run trace is exactly that sequence.  Moreover, at session
level, the `recorder.update` call of run `k` happens only after that run has
completed: the `k`-th update event is preceded by exactly `k + 1`
`finish_logger_run` events (and `k` earlier updates), so both results were
available when it was recorded. -/
theorem run_phase_order {σ S P E δ : Type} (fw : Framework σ S P E δ)
    (h : Heap σ) (bT bM : Nat) (dm : DataModule δ) (rid : Option Int)
    (n : Int) (v : Bool) (hT : fw.Total) :
    (∃ vs ts ck ttail h',
       run_evaluation fw h bT bM dm rid v =
         (.ok (vs, ts),
          Event.cloneCall bT bM h.nextId (h.nextId + 1) ::
          Event.configureModel (h.nextId + 1) ::
          Event.initLoggerRun h.nextId rid ::
          Event.fitCall h.nextId (h.nextId + 1) ::
          Event.validateCall h.nextId v ck ::
          (ttail ++ [Event.finishLoggerRun h.nextId rid]), h') ∧
       ((dm.datasets.test = none ∧ ttail = []) ∨
        (∃ tck, ttail = [Event.testCall h.nextId v tck]))) ∧
    (∀ k, k < n.toNat →
      ∃ vs ts pre post,
        (run_evaluation_session fw h bT bM dm n v).2.1 =
          pre ++ Event.recorderUpdate vs ts :: post ∧
        pre.countP Event.isFinish = k + 1 ∧ pre.countP Event.isUpdate = k) := by
  constructor
  · obtain ⟨vs, ts, ck, ttail, h', hspec, hcase⟩ :=
      run_evaluation_total_spec fw h bT bM dm rid v hT
    refine ⟨vs, ts, ck, ttail, h', hspec, ?_⟩
    rcases hcase with ⟨h1, -, h2⟩ | ⟨d, ts0, tck, st, st', -, -, ht, -⟩
    · exact .inl ⟨h1, h2⟩
    · exact .inr ⟨tck, ht⟩
  · intro k hk
    have hk' : k < (List.range n.toNat).length := by simpa using hk
    obtain ⟨vs, ts, pre, post, hpre, hfin, hupd⟩ :=
      run_loop_update_position fw bT bM dm (!v) hT (List.range n.toNat) h k hk'
    have hok := run_loop_total_ok fw bT bM dm (!v) hT (List.range n.toNat) h
    unfold run_evaluation_session
    split
    · rename_i e tr h1 heq
      rw [heq] at hok
      exact absurd hok (by simp)
    · rename_i u tr h1 heq
      rw [heq] at hpre
      refine ⟨vs, ts, Event.recorderNew (fw.default_log_dir (h.get bT)) v :: pre,
        post ++ [Event.recorderSave], ?_, ?_, ?_⟩
      · show Event.recorderNew (fw.default_log_dir (h.get bT)) v ::
          (tr ++ [Event.recorderSave]) = _
        rw [show tr = pre ++ Event.recorderUpdate vs ts :: post from hpre]
        simp [List.cons_append, List.append_assoc]
      · simp [List.countP_cons, Event.isFinish, hfin]
      · simp [List.countP_cons, Event.isUpdate, hupd]

/-- Witness for claim C5: in a one-run session, the `recorder.update` event is
preceded by exactly one `finish_logger_run` event and no earlier update. -/
theorem run_phase_order_witness :
    ∃ vs ts pre post,
      (run_evaluation_session natFramework natHeap 0 1 dmWithTest 1
          true).2.1 =
        pre ++ Event.recorderUpdate vs ts :: post ∧
      pre.countP Event.isFinish = 0 + 1 ∧ pre.countP Event.isUpdate = 0 :=
  (run_phase_order natFramework natHeap 0 1 dmWithTest (some 0) 1 true
    natFramework_total).2 0 (by decide)

theorem test_phase_none {σ S P E δ : Type} (fw : Framework σ S P E δ)
    (h2 : Heap σ) (t : Nat) (dm : DataModule δ) (v : Bool) (vs : S)
    (hdm : dm.datasets.test = none) :
    test_phase fw h2 t dm v vs = (.ok (vs, none), [], h2) := by
  unfold test_phase
  rw [hdm]

theorem validate_phase_none {σ S P E δ : Type} (fw : Framework σ S P E δ)
    (h1 : Heap σ) (t : Nat) (dm : DataModule δ) (v : Bool)
    (hdm : dm.datasets.test = none) :
    (∀ e ∈ (validate_phase fw h1 t dm v).2.1, e.isTest = false) ∧
    (∀ vs ts, (validate_phase fw h1 t dm v).1 = .ok (vs, ts) → ts = none) := by
  unfold validate_phase
  split
  · constructor
    · intro e he
      simp at he
      subst he
      rfl
    · intro vs ts hok
      simp at hok
  · rename_i vt hv
    split
    rename_i res tr h2 heq
    have h' := (test_phase_none fw (h1.set t vt.2) t dm v vt.1 hdm).symm.trans heq
    simp only [Prod.mk.injEq] at h'
    obtain ⟨hres, htr, -⟩ := h'
    constructor
    · intro e he
      rcases List.mem_cons.1 he with h1' | h1'
      · subst h1'
        rfl
      · rw [← htr] at h1'
        simp at h1'
    · intro vs ts hok
      rw [show ((res, Event.validateCall t v
          (fw.checkpoint_type (h1.get t)) :: tr, h2) :
            Except E (S × Option S) × List (Event S) × Heap σ).1 = res
          from rfl] at hok
      rw [← hres] at hok
      simp at hok
      exact hok.2.symm

theorem fit_and_validate_none {σ S P E δ : Type} (fw : Framework σ S P E δ)
    (h : Heap σ) (t m : Nat) (dm : DataModule δ) (v : Bool)
    (hdm : dm.datasets.test = none) :
    (∀ e ∈ (fit_and_validate fw h t m dm v).2.1, e.isTest = false) ∧
    (∀ vs ts, (fit_and_validate fw h t m dm v).1 = .ok (vs, ts) → ts = none) := by
  unfold fit_and_validate
  split
  · constructor
    · intro e he
      simp at he
      subst he
      rfl
    · intro vs ts hok
      simp at hok
  · rename_i tm hf
    split
    rename_i res tr h' heq
    have hv := validate_phase_none fw ((h.set t tm.1).set m tm.2) t dm v hdm
    rw [heq] at hv
    constructor
    · intro e he
      rcases List.mem_cons.1 he with h1' | h1'
      · subst h1'
        rfl
      · exact hv.1 e h1'
    · intro vs ts hok
      exact hv.2 vs ts hok

/-- Claim C2:  In every call to `fit_and_validate`, the held-out test evaluation
runs if and only if the datamodule's test dataset is present: when
`datamodule.datasets.test` is `None`, the returned test component is `None`
and `trainer.test` is never invoked (no test event in the trace); otherwise
(for a completed, non-raising run) the returned test component is exactly the
result of the `trainer.test` call recorded in the trace. -/
theorem fit_and_validate_test_presence {σ S P E δ : Type}
    (fw : Framework σ S P E δ) (h : Heap σ) (t m : Nat) (dm : DataModule δ)
    (v : Bool) :
    (dm.datasets.test = none →
       (∀ e ∈ (fit_and_validate fw h t m dm v).2.1, e.isTest = false) ∧
       (∀ vs ts, (fit_and_validate fw h t m dm v).1 = .ok (vs, ts) →
          ts = none)) ∧
    (∀ d, dm.datasets.test = some d → fw.Total →
       ∃ vs ts0 tck st st',
         (fit_and_validate fw h t m dm v).1 = .ok (vs, some ts0) ∧
         fw.test st dm v tck = .ok (ts0, st') ∧
         Event.testCall t v tck ∈ (fit_and_validate fw h t m dm v).2.1) := by
  constructor
  · exact fun hdm => fit_and_validate_none fw h t m dm v hdm
  · intro d hdm hT
    obtain ⟨vs, ts, ck, ttail, h', hspec, hcase⟩ :=
      fit_and_validate_total_spec fw h t m dm v hT
    rcases hcase with ⟨hnone, -, -⟩ | ⟨d', ts0, tck, st, st', -, hts, httail, htest⟩
    · rw [hdm] at hnone
      exact absurd hnone (by simp)
    · subst hts
      refine ⟨vs, ts0, tck, st, st', ?_, htest, ?_⟩
      · rw [hspec]
      · rw [hspec]
        subst httail
        simp

/-- Witness for claim C2: with a present test dataset and the `Nat` framework,
the returned test component is the result of the `trainer.test` call. -/
theorem fit_and_validate_test_presence_witness :
    ∃ vs ts0 tck st st',
      (fit_and_validate natFramework natHeap 0 1 dmWithTest true).1 =
        .ok (vs, some ts0) ∧
      natFramework.test st dmWithTest true tck = .ok (ts0, st') ∧
      Event.testCall 0 true tck ∈
        (fit_and_validate natFramework natHeap 0 1 dmWithTest true).2.1 :=
  (fit_and_validate_test_presence natFramework natHeap 0 1 dmWithTest true).2
    0 rfl natFramework_total

theorem test_phase_error {σ S P E δ : Type} (fw : Framework σ S P E δ)
    (h2 : Heap σ) (t : Nat) (dm : DataModule δ) (v : Bool) (vs : S) (e : E) :
    (test_phase fw h2 t dm v vs).1 = .error e → fw.Raises e := by
  unfold test_phase
  split
  · intro hc
    simp at hc
  · split
    · rename_i e0 htt
      intro hc
      simp at hc
      subst hc
      exact .inr (.inr (.inl ⟨h2.get t, dm, v, fw.checkpoint_type (h2.get t), htt⟩))
    · intro hc
      simp at hc

theorem validate_phase_error {σ S P E δ : Type} (fw : Framework σ S P E δ)
    (h1 : Heap σ) (t : Nat) (dm : DataModule δ) (v : Bool) (e : E) :
    (validate_phase fw h1 t dm v).1 = .error e → fw.Raises e := by
  unfold validate_phase
  split
  · rename_i e0 hv
    intro hc
    simp at hc
    subst hc
    exact .inr (.inl ⟨h1.get t, dm, v, fw.checkpoint_type (h1.get t), hv⟩)
  · rename_i vt hv
    split
    rename_i res tr h2 heq
    intro hc
    have hres : (test_phase fw (h1.set t vt.2) t dm v vt.1).1 = .error e := by
      rw [heq]
      exact hc
    exact test_phase_error fw (h1.set t vt.2) t dm v vt.1 e hres

theorem fit_and_validate_error {σ S P E δ : Type} (fw : Framework σ S P E δ)
    (h : Heap σ) (t m : Nat) (dm : DataModule δ) (v : Bool) (e : E) :
    (fit_and_validate fw h t m dm v).1 = .error e → fw.Raises e := by
  unfold fit_and_validate
  split
  · rename_i e0 hf
    intro hc
    simp at hc
    subst hc
    exact .inl ⟨h.get t, h.get m, dm, hf⟩
  · rename_i tm hf
    split
    rename_i res tr h' heq
    intro hc
    have hres : (validate_phase fw ((h.set t tm.1).set m tm.2) t dm v).1 =
        .error e := by
      rw [heq]
      exact hc
    exact validate_phase_error fw ((h.set t tm.1).set m tm.2) t dm v e hres

theorem run_evaluation_error {σ S P E δ : Type} (fw : Framework σ S P E δ)
    (h : Heap σ) (bT bM : Nat) (dm : DataModule δ) (rid : Option Int) (v : Bool)
    (e : E) :
    (run_evaluation fw h bT bM dm rid v).1 = .error e → fw.Raises e := by
  unfold run_evaluation
  simp only [clone_eq]
  split
  · rename_i e0 tr h4 heq
    intro hc
    simp at hc
    subst hc
    have hres : (fit_and_validate fw
        (prepare fw (cloneHeap h bT bM) h.nextId (h.nextId + 1) rid)
        h.nextId (h.nextId + 1) dm v).1 = .error e0 := by
      rw [heq]
    exact fit_and_validate_error fw _ h.nextId (h.nextId + 1) dm v e0 hres
  · rename_i results tr h4 heq
    intro hc
    simp at hc

theorem run_loop_error {σ S P E δ : Type} (fw : Framework σ S P E δ)
    (bT bM : Nat) (dm : DataModule δ) (rv : Bool) :
    ∀ (idxs : List Nat) (h : Heap σ) (e : E),
      (run_loop fw bT bM dm rv idxs h).1 = .error e → fw.Raises e := by
  intro idxs
  induction idxs with
  | nil =>
      intro h e hc
      simp [run_loop] at hc
  | cons a rest ih =>
      intro h e hc
      simp only [run_loop] at hc
      split at hc
      · rename_i e0 tr h1 heq
        simp at hc
        subst hc
        have hres : (run_evaluation fw h bT bM dm (some (Int.ofNat a)) rv).1 =
            .error e0 := by
          rw [heq]
        exact run_evaluation_error fw h bT bM dm (some (Int.ofNat a)) rv e0 hres
      · rename_i scores tr h1 heq
        exact ih h1 e hc

theorem run_evaluation_session_error {σ S P E δ : Type}
    (fw : Framework σ S P E δ) (h : Heap σ) (bT bM : Nat) (dm : DataModule δ)
    (n : Int) (v : Bool) (e : E) :
    (run_evaluation_session fw h bT bM dm n v).1 = .error e → fw.Raises e := by
  unfold run_evaluation_session
  split
  · rename_i e0 tr h1 heq
    intro hc
    simp at hc
    subst hc
    have hres : (run_loop fw bT bM dm (!v) (List.range n.toNat) h).1 =
        .error e0 := by
      rw [heq]
    exact run_loop_error fw bT bM dm (!v) (List.range n.toNat) h e0 hres
  · rename_i u tr h1 heq
    intro hc
    simp at hc

theorem infer_model_error {σ S P E δ : Type} (fw : Framework σ S P E δ)
    (h : Heap σ) (bT bM : Nat) (dm : DataModule δ) (rp : Bool) (e : E) :
    (infer_model fw h bT bM dm rp).1 = .error e → fw.Raises e := by
  unfold infer_model
  simp only [clone_eq]
  split
  · rename_i e0 hp
    intro hc
    simp at hc
    subst hc
    exact .inr (.inr (.inr ⟨(cloneHeap h bT bM).get h.nextId,
      (cloneHeap h bT bM).get (h.nextId + 1), dm, rp, hp⟩))
  · intro hc
    simp at hc

/-- Claim C6:  For every exception raised by a delegated framework call,
`run_evaluation_session`, `run_evaluation`, `fit_and_validate` and
`infer_model` propagate it unmodified: whenever one of them returns an
error, that error is exactly one that a delegated `fit` / `validate` /
`test` / `predict` call raised; and when no delegated call raises, none of
them raises. -/
theorem errors_propagate {σ S P E δ : Type} (fw : Framework σ S P E δ)
    (h : Heap σ) (bT bM t m : Nat) (dm : DataModule δ) (rid : Option Int)
    (n : Int) (v rp : Bool) :
    ((∀ e, (run_evaluation_session fw h bT bM dm n v).1 = .error e →
        fw.Raises e) ∧
     (∀ e, (run_evaluation fw h bT bM dm rid v).1 = .error e → fw.Raises e) ∧
     (∀ e, (fit_and_validate fw h t m dm v).1 = .error e → fw.Raises e) ∧
     (∀ e, (infer_model fw h bT bM dm rp).1 = .error e → fw.Raises e)) ∧
    (fw.Total →
       (run_evaluation_session fw h bT bM dm n v).1 = .ok () ∧
       (∃ r, (run_evaluation fw h bT bM dm rid v).1 = .ok r) ∧
       (∃ r, (fit_and_validate fw h t m dm v).1 = .ok r) ∧
       (∃ r, (infer_model fw h bT bM dm rp).1 = .ok r)) := by
  constructor
  · exact ⟨fun e => run_evaluation_session_error fw h bT bM dm n v e,
      fun e => run_evaluation_error fw h bT bM dm rid v e,
      fun e => fit_and_validate_error fw h t m dm v e,
      fun e => infer_model_error fw h bT bM dm rp e⟩
  · intro hT
    refine ⟨?_, ?_, ?_, ?_⟩
    · have hok := run_loop_total_ok fw bT bM dm (!v) hT (List.range n.toNat) h
      unfold run_evaluation_session
      split
      · rename_i e0 tr h1 heq
        rw [heq] at hok
        exact absurd hok (by simp)
      · rfl
    · obtain ⟨vs, ts, ck, ttail, h', hspec, -⟩ :=
        run_evaluation_total_spec fw h bT bM dm rid v hT
      exact ⟨(vs, ts), by rw [hspec]⟩
    · obtain ⟨vs, ts, ck, ttail, h', hspec, -⟩ :=
        fit_and_validate_total_spec fw h t m dm v hT
      exact ⟨(vs, ts), by rw [hspec]⟩
    · unfold infer_model
      simp only [clone_eq]
      obtain ⟨q, hp⟩ := hT.2.2.2 ((cloneHeap h bT bM).get h.nextId)
        ((cloneHeap h bT bM).get (h.nextId + 1)) dm rp
      simp only [hp]
      exact ⟨q.1, rfl⟩

/-- Witness for claim C6: a framework whose `fit` raises `7` makes
`fit_and_validate` return exactly that exception, so `7` is an exception the
framework raises. -/
theorem errors_propagate_witness : errFramework.Raises 7 :=
  (errors_propagate errFramework natHeap 0 1 0 1 dmWithTest (some 0) 1 true
    true).1.2.2.1 7 rfl

/-- Claim C8:  `infer_model` returns the value of `trainer.predict` (despite the
Python annotation `-> None`, the body is `return trainer.predict(...)`): for
either value of `return_predictions`, the result is exactly what
`trainer.predict` returns for the cloned trainer and model — which hold the
base objects' states. -/
theorem infer_model_returns_predictions {σ S P E δ : Type}
    (fw : Framework σ S P E δ) (h : Heap σ) (bT bM : Nat) (dm : DataModule δ)
    (rp : Bool) :
    (infer_model fw h bT bM dm rp).1 =
      (fw.predict (h.get bT) (h.get bM) dm rp).map (fun q => q.1) := by
  unfold infer_model
  simp only [clone_eq, cloneHeap_get_trainer, cloneHeap_get_model]
  cases hp : fw.predict (h.get bT) (h.get bM) dm rp <;> simp [hp, Except.map]

/-- Claim C9:  In every normal (non-raising) call to `run_evaluation`, logger
runs are correctly bracketed: `init_logger_run(run_id)` is invoked on the
cloned trainer before fitting begins, `finish_logger_run(run_id)` is invoked
with the same `run_id` after evaluation completes, and no other logger call
occurs in between. -/
theorem run_logger_bracketing {σ S P E δ : Type} (fw : Framework σ S P E δ)
    (h : Heap σ) (bT bM : Nat) (dm : DataModule δ) (rid : Option Int)
    (v : Bool) (hT : fw.Total) :
    ∃ t mid,
      (run_evaluation fw h bT bM dm rid v).2.1 =
        Event.cloneCall bT bM t (t + 1) :: Event.configureModel (t + 1) ::
          Event.initLoggerRun t rid :: (mid ++ [Event.finishLoggerRun t rid]) ∧
      Event.fitCall t (t + 1) ∈ mid ∧
      ∀ e ∈ mid, e.isInit = false ∧ e.isFinish = false := by
  obtain ⟨vs, ts, ck, ttail, h', hspec, hcase⟩ :=
    run_evaluation_total_spec fw h bT bM dm rid v hT
  refine ⟨h.nextId, Event.fitCall h.nextId (h.nextId + 1) ::
    Event.validateCall h.nextId v ck :: ttail, ?_, ?_, ?_⟩
  · rw [hspec]
    simp [List.cons_append, List.append_assoc]
  · simp
  · intro e he
    rcases List.mem_cons.1 he with h1 | h1
    · subst h1
      exact ⟨rfl, rfl⟩
    rcases List.mem_cons.1 h1 with h2 | h2
    · subst h2
      exact ⟨rfl, rfl⟩
    · rcases hcase with ⟨-, -, ht⟩ | ⟨d, ts0, tck, st, st', -, -, ht, -⟩ <;>
        subst ht
      · simp at h2
      · simp at h2
        subst h2
        exact ⟨rfl, rfl⟩

/-- Witness for claim C9: the one run of the `Nat` framework session has its
logger run bracketed by matching `init` and `finish` events. -/
theorem run_logger_bracketing_witness :
    ∃ t mid,
      (run_evaluation natFramework natHeap 0 1 dmWithTest (some 0)
          false).2.1 =
        Event.cloneCall 0 1 t (t + 1) :: Event.configureModel (t + 1) ::
          Event.initLoggerRun t (some 0) ::
            (mid ++ [Event.finishLoggerRun t (some 0)]) ∧
      Event.fitCall t (t + 1) ∈ mid ∧
      ∀ e ∈ mid, e.isInit = false ∧ e.isFinish = false :=
  run_logger_bracketing natFramework natHeap 0 1 dmWithTest (some 0) false
    natFramework_total

/-- Claim C10:  When `run_evaluation_session` is called with `n_runs <= 0`, no
run is performed: the result is success, the trace consists solely of the
`SessionRecorder` construction followed immediately by `recorder.save` (no
clone, fit, evaluation or `recorder.update` events), and the heap is
untouched. -/
theorem session_zero_runs {σ S P E δ : Type} (fw : Framework σ S P E δ)
    (h : Heap σ) (bT bM : Nat) (dm : DataModule δ) (n : Int) (v : Bool)
    (hn : n ≤ 0) :
    run_evaluation_session fw h bT bM dm n v =
      (.ok (), [Event.recorderNew (fw.default_log_dir (h.get bT)) v,
        Event.recorderSave], h) := by
  have h0 : n.toNat = 0 := Int.toNat_of_nonpos hn
  unfold run_evaluation_session
  rw [h0]
  rfl

/-- Witness for claim C10: a session with `n_runs = -3` only constructs the
recorder and saves. -/
theorem session_zero_runs_witness :
    run_evaluation_session natFramework natHeap 0 1 dmWithTest (-3) true =
      (.ok (), [Event.recorderNew "logs" true, Event.recorderSave],
       natHeap) :=
  session_zero_runs natFramework natHeap 0 1 dmWithTest (-3) true (by decide)

/-- Claim C1:  For every call to `run_evaluation_session`, `run_evaluation`, or
`infer_model`, the input base trainer and base model objects are unchanged on
return: each run operates only on fresh clones produced by `_utils.clone`, so
the base objects keep their states.  The hypotheses say that the base ids are
allocated objects of the heap (below the allocation counter). -/
theorem base_objects_unchanged {σ S P E δ : Type} (fw : Framework σ S P E δ)
    (h : Heap σ) (bT bM : Nat) (dm : DataModule δ) (n : Int) (rid : Option Int)
    (v rp : Bool) (hT : bT < h.nextId) (hM : bM < h.nextId) :
    ((run_evaluation_session fw h bT bM dm n v).2.2.get bT = h.get bT ∧
     (run_evaluation_session fw h bT bM dm n v).2.2.get bM = h.get bM) ∧
    ((run_evaluation fw h bT bM dm rid v).2.2.get bT = h.get bT ∧
     (run_evaluation fw h bT bM dm rid v).2.2.get bM = h.get bM) ∧
    ((infer_model fw h bT bM dm rp).2.2.get bT = h.get bT ∧
     (infer_model fw h bT bM dm rp).2.2.get bM = h.get bM) :=
  ⟨⟨run_evaluation_session_frame fw h bT bM dm n v bT hT,
    run_evaluation_session_frame fw h bT bM dm n v bM hM⟩,
   ⟨(run_evaluation_frame fw h bT bM dm rid v).2 bT hT,
    (run_evaluation_frame fw h bT bM dm rid v).2 bM hM⟩,
   ⟨infer_model_frame fw h bT bM dm rp bT hT,
    infer_model_frame fw h bT bM dm rp bM hM⟩⟩

/-- Witness for claim C1 at concrete inputs: two runs over the `Nat` framework
leave the base trainer (id `0`) and base model (id `1`) unchanged. -/
theorem base_objects_unchanged_witness :
    (0 : Nat) < natHeap.nextId ∧ (1 : Nat) < natHeap.nextId ∧
    ((run_evaluation_session natFramework natHeap 0 1 dmWithTest 2 true).2.2.get 0
        = natHeap.get 0 ∧
     (run_evaluation_session natFramework natHeap 0 1 dmWithTest 2 true).2.2.get 1
        = natHeap.get 1) :=
  ⟨by decide, by decide,
   (base_objects_unchanged natFramework natHeap 0 1 dmWithTest 2 (some 0) true true
      (by decide) (by decide)).1⟩

end Eva
